import Mathlib

/-!
Shallow embedding of the text-alignment scoring and feedback engine of the
pronunciation-coach repository, and verification of its specification claims.

Embedded source files:
* `src/agents/ComparisonAgent.ts` — `compareTexts`, `calculateLengthPenalty`,
  `calculateWordOrderBonus`, `analyzeErrors`, `calculateDifficulty`,
  `countConsonantClusters`, `countUncommonSounds`, `detectTongueTwisters`
* `src/utils/phonemeUtils.ts` — `comparePhonemes`, `calculateStringSimilarity`,
  `levenshteinDistance`, `getLetterGrade`
* `src/agents/FeedbackAgent.ts` — `generateMotivationalMessage`
* `src/phrases.ts` — `analyzeDifficulty`

Modelling conventions: JavaScript strings are Lean `String`s manipulated through
their `List Char` data; JavaScript numbers are modelled by exact rationals `ℚ`
(every quantity the algorithms produce is rational, and none of the claims
depends on IEEE-754 rounding artifacts); `Math.round` is `⌊x + 1/2⌋`, which is
the JS rounding rule (half-up, towards +∞).  String-library calls
(`trim`, `split(/\s+/)`, `toLowerCase`, regexes) are embedded by executable
Lean functions implementing their documented ECMAScript semantics on the
character sets the program uses (ASCII letters and common whitespace).
-/

namespace Pron

/-- The JS `\s` whitespace class, restricted to its ASCII members
(space, tab, line feed, vertical tab, form feed, carriage return),
which are the only whitespace characters the program's data can contain. -/
def jsSpace (c : Char) : Bool :=
  c == ' ' || c == '\t' || c == '\n' || c == '\x0b' || c == '\x0c' || c == '\r'

/-- The JS `\w` word-character class `[A-Za-z0-9_]`. -/
def isWordChar (c : Char) : Bool :=
  ('a' ≤ c && c ≤ 'z') || ('A' ≤ c && c ≤ 'Z') || ('0' ≤ c && c ≤ '9') || c == '_'

/-- The ASCII uppercase-to-lowercase table of `String.prototype.toLowerCase`
(the range relevant to this program's inputs). -/
def lowerPairs : List (Char × Char) :=
  [('A','a'), ('B','b'), ('C','c'), ('D','d'), ('E','e'), ('F','f'), ('G','g'),
   ('H','h'), ('I','i'), ('J','j'), ('K','k'), ('L','l'), ('M','m'), ('N','n'),
   ('O','o'), ('P','p'), ('Q','q'), ('R','r'), ('S','s'), ('T','t'), ('U','u'),
   ('V','v'), ('W','w'), ('X','x'), ('Y','y'), ('Z','z')]

/-- `String.prototype.toLowerCase` on one character: `A`–`Z` map to `a`–`z`,
everything else is fixed. -/
def jsLowerChar (c : Char) : Char :=
  match lowerPairs.find? (fun p => p.1 == c) with
  | some p => p.2
  | none => c

/-- `text.toLowerCase()` as a map over the characters. -/
def lowerStr (l : List Char) : List Char := l.map jsLowerChar

/-- Engine of `str.split(/\s+/)`: walk the characters, `inWS` records that we
are inside a whitespace separator run (in which case the token before it has
already been emitted), `acc` holds the reversed characters of the token being
read.  Matches ECMAScript `String.prototype.split` with separator `/\s+/`:
a leading (resp. trailing) whitespace run produces a leading (resp. trailing)
empty token, and the empty string yields `[""]`. -/
def jsSplitAux : Bool → List Char → List Char → List (List Char)
  | inWS, [], acc => if inWS then [[]] else [acc.reverse]
  | inWS, c :: rest, acc =>
      if jsSpace c then
        if inWS then jsSplitAux true rest acc
        else acc.reverse :: jsSplitAux true rest []
      else jsSplitAux false rest (c :: acc)

/-- `str.split(/\s+/)`. -/
def jsSplitWs (l : List Char) : List (List Char) := jsSplitAux false l []

/-- `str.trim()`: remove leading and trailing whitespace. -/
def jsTrim (l : List Char) : List Char :=
  ((l.dropWhile jsSpace).reverse.dropWhile jsSpace).reverse

/-- `text.trim().split(/\s+/)` — the word list used by
`calculateLengthPenalty` (no lowercasing). -/
def strWords (s : String) : List (List Char) := jsSplitWs (jsTrim s.data)

/-- `text.toLowerCase().trim().split(/\s+/)` — the word list used by
`comparePhonemes`, `calculateWordOrderBonus` and `analyzeErrors`. -/
def strWordsLower (s : String) : List (List Char) :=
  jsSplitWs (jsTrim (lowerStr s.data))

/-- `Math.round`: round half-up (towards `+∞`), the ECMAScript rule. -/
def jsRound (x : ℚ) : ℤ := ⌊x + 1/2⌋

/-- `levenshteinDistance` (phonemeUtils.ts) with explicit fuel so that the
definition is structural and computes by kernel reduction.  The recurrence is
the dynamic program of the source: on equal heads take the diagonal, otherwise
one plus the minimum of the three neighbour cells.  Each recursive step
consumes at least one character and one unit of fuel, so with fuel
`a.length + b.length` the remaining total length never exceeds the remaining
fuel; when the fuel hits zero both lists are empty and the fallback
`a.length + b.length = 0` is the correct distance. -/
def levFuel : ℕ → List Char → List Char → ℕ
  | 0, a, b => a.length + b.length
  | _ + 1, [], b => b.length
  | _ + 1, a@(_ :: _), [] => a.length
  | fuel + 1, a :: as, b :: bs =>
      if a = b then levFuel fuel as bs
      else 1 + min (levFuel fuel as bs)
                   (min (levFuel fuel (a :: as) bs) (levFuel fuel as (b :: bs)))

/-- `levenshteinDistance(str1, str2)`. -/
def levenshteinDistance (a b : List Char) : ℕ := levFuel (a.length + b.length) a b

/-- `calculateStringSimilarity(str1, str2)` (phonemeUtils.ts): normalized
similarity `(longer.length - distance) / longer.length`, `1.0` when both are
empty.  On a length tie JS picks `str2` as `longer`, which we mirror. -/
def calculateStringSimilarity (str1 str2 : List Char) : ℚ :=
  let longer := if str1.length > str2.length then str1 else str2
  let shorter := if str1.length > str2.length then str2 else str1
  if longer.length = 0 then 1
  else ((longer.length : ℚ) - (levenshteinDistance longer shorter : ℚ)) / (longer.length : ℚ)

/-- Credit for one aligned word pair in `comparePhonemes`: `1.0` on equality,
otherwise the string similarity. -/
def wordCredit (u t : List Char) : ℚ :=
  if u = t then 1 else calculateStringSimilarity u t

/-- The `matches` accumulator of `comparePhonemes`: sum of the credits over the
positionally aligned word pairs (the loop runs to the shorter length, which is
what `zip` produces). -/
def matchSum (uw tw : List (List Char)) : ℚ :=
  ((uw.zip tw).map (fun p => wordCredit p.1 p.2)).sum

/-- `comparePhonemes(userText, targetText)` (phonemeUtils.ts).  The guard
`!userText || !targetText` is the JS falsiness test, true exactly on the empty
string. -/
def comparePhonemes (userText targetText : String) : ℤ :=
  if userText.data = [] ∨ targetText.data = [] then 0
  else
    let userWords := strWordsLower userText
    let targetWords := strWordsLower targetText
    let maxLength := max userWords.length targetWords.length
    jsRound (matchSum userWords targetWords / (maxLength : ℚ) * 100)

/-- `calculateLengthPenalty(userText, targetText)` (ComparisonAgent.ts). -/
def calculateLengthPenalty (userText targetText : String) : ℚ :=
  let userWords := (strWords userText).length
  let targetWords := (strWords targetText).length
  let lengthDifference := |(userWords : ℚ) - (targetWords : ℚ)|
  let maxWords := max userWords targetWords
  if maxWords = 0 then 0
  else lengthDifference / (maxWords : ℚ) * 30

/-- The `consecutiveMatches` / `maxConsecutive` loop of
`calculateWordOrderBonus`: `cur` is the current run of positional matches,
`best` the best run seen so far. -/
def maxConsecAux : List (List Char × List Char) → ℕ → ℕ → ℕ
  | [], _, best => best
  | p :: rest, cur, best =>
      if p.1 = p.2 then maxConsecAux rest (cur + 1) (max best (cur + 1))
      else maxConsecAux rest 0 best

/-- Longest run of consecutive positional word matches. -/
def maxConsecutive (uw tw : List (List Char)) : ℕ := maxConsecAux (uw.zip tw) 0 0

/-- `calculateWordOrderBonus(userText, targetText)` (ComparisonAgent.ts). -/
def calculateWordOrderBonus (userText targetText : String) : ℚ :=
  let userWords := strWordsLower userText
  let targetWords := strWordsLower targetText
  (maxConsecutive userWords targetWords : ℚ) / (targetWords.length : ℚ) * 20

/-- `compareTexts(userText, targetText)` (ComparisonAgent.ts): weighted
combination of the phoneme score, the word-order bonus and the length penalty,
rounded and clamped into `[0, 100]`. -/
def compareTexts (userText targetText : String) : ℤ :=
  if userText.data = [] ∨ targetText.data = [] then 0
  else
    let score : ℚ := (comparePhonemes userText targetText : ℚ)
    let lengthPenalty := calculateLengthPenalty userText targetText
    let wordOrderBonus := calculateWordOrderBonus userText targetText
    let finalScore := score * (7/10) + wordOrderBonus * (2/10) - lengthPenalty * (1/10)
    max 0 (min 100 (jsRound finalScore))

/-- One substitution entry of `analyzeErrors`: `{ original, spoken }`. -/
structure Substitution where
  original : List Char
  spoken : List Char
deriving DecidableEq, Repr

/-- The error report returned by `analyzeErrors`. -/
structure ErrorReport where
  missedWords : List (List Char)
  addedWords : List (List Char)
  substitutions : List Substitution
deriving DecidableEq, Repr

/-- Tail of the `analyzeErrors` loop once the user's words are exhausted
(`userWord` is `null` from here on): each remaining nonempty target word is
missed. -/
def errWalkMissed : List (List Char) → ErrorReport
  | [] => ⟨[], [], []⟩
  | t :: ts =>
      let r := errWalkMissed ts
      if t ≠ [] then { r with missedWords := t :: r.missedWords } else r

/-- The position-by-position loop of `analyzeErrors`, walking both word lists
simultaneously.  An exhausted list corresponds to the JS `null` word; the JS
truthiness tests `targetWord && !userWord` etc. treat an empty-string token
(which `split` produces only for empty or whitespace-only input) exactly like
`null`, which the `w ≠ []` conditions mirror. -/
def errWalk : List (List Char) → List (List Char) → ErrorReport
  | [], ts => errWalkMissed ts
  | u :: us, [] =>
      let r := errWalk us []
      if u ≠ [] then { r with addedWords := u :: r.addedWords } else r
  | u :: us, t :: ts =>
      let r := errWalk us ts
      if t ≠ [] ∧ u = [] then { r with missedWords := t :: r.missedWords }
      else if u ≠ [] ∧ t = [] then { r with addedWords := u :: r.addedWords }
      else if u ≠ [] ∧ t ≠ [] ∧ u ≠ t then
        { r with substitutions := ⟨t, u⟩ :: r.substitutions }
      else r

/-- `analyzeErrors(userText, targetText)` (ComparisonAgent.ts). -/
def analyzeErrors (userText targetText : String) : ErrorReport :=
  errWalk (strWordsLower userText) (strWordsLower targetText)

/-- The regex consonant class `[bcdfghjklmnpqrstvwxyz]` with the `i` flag:
an ASCII letter other than a vowel. -/
def isConsonant (c : Char) : Bool :=
  let d := jsLowerChar c
  ('a' ≤ d && d ≤ 'z') &&
    !(d == 'a' || d == 'e' || d == 'i' || d == 'o' || d == 'u')

/-- Counting loop for `text.match(/[bcdfghjklmnpqrstvwxyz]{3,}/gi)`:
`run` is the length of the consonant run currently being read; each maximal
run of length at least 3 yields one (greedy, non-overlapping) match. -/
def ccAux : List Char → ℕ → ℕ
  | [], run => if 3 ≤ run then 1 else 0
  | c :: rest, run =>
      if isConsonant c then ccAux rest (run + 1)
      else (if 3 ≤ run then 1 else 0) + ccAux rest 0

/-- `countConsonantClusters(text)` (ComparisonAgent.ts). -/
def countConsonantClusters (text : List Char) : ℕ := ccAux text 0

/-- Does the pattern `p` occur at the head of `l`? -/
def leadsWith : List Char → List Char → Bool
  | [], _ => true
  | _ :: _, [] => false
  | p :: ps, c :: cs => p == c && leadsWith ps cs

/-- Non-overlapping left-to-right occurrence count of a (nonempty) literal
pattern, as produced by `text.match(new RegExp(pattern, 'g'))`.  Fuel makes
the definition structural; every step consumes at least one character, so fuel
`l.length` is always sufficient (at fuel 0 the list is exhausted). -/
def countOccFuel : ℕ → List Char → List Char → ℕ
  | 0, _, _ => 0
  | _ + 1, [], _ => 0
  | fuel + 1, l@(_ :: rest), p =>
      if leadsWith p l && !p.isEmpty then 1 + countOccFuel fuel (l.drop p.length) p
      else countOccFuel fuel rest p

/-- Occurrences of `p` in `l`, non-overlapping, left to right. -/
def countOccurrences (l p : List Char) : ℕ := countOccFuel l.length l p

/-- `countUncommonSounds(text)` (ComparisonAgent.ts): total occurrences of the
patterns `th`, `zh`, `ng`, `tion`, `sion` in the lowercased text. -/
def countUncommonSounds (text : List Char) : ℕ :=
  countOccurrences (lowerStr text) "th".data +
  countOccurrences (lowerStr text) "zh".data +
  countOccurrences (lowerStr text) "ng".data +
  countOccurrences (lowerStr text) "tion".data +
  countOccurrences (lowerStr text) "sion".data

/-- `detectTongueTwisters(text)` (ComparisonAgent.ts): split the lowercased
text on whitespace, tally the first characters of the nonempty words, and for
each starting character shared by at least 3 words add `count - 2`. -/
def detectTongueTwisters (text : List Char) : ℕ :=
  let words := jsSplitWs (lowerStr text)
  let firsts := words.filterMap (fun w => w.head?)
  (firsts.dedup.map (fun c =>
    let k := firsts.count c
    if 3 ≤ k then k - 2 else 0)).sum

/-- `calculateDifficulty(text)` (ComparisonAgent.ts): weighted difficulty
factors, normalized by the word count onto a 1–10 scale. -/
def calculateDifficulty (text : String) : ℤ :=
  let words := jsSplitWs (lowerStr text.data)
  let longWords := 2 * (words.filter (fun w => 7 < w.length)).length
  let difficultyScore : ℚ :=
    (longWords : ℚ) + (countConsonantClusters text.data : ℚ) +
    (countUncommonSounds text.data : ℚ) + (detectTongueTwisters text.data : ℚ)
  min 10 (max 1 (jsRound (difficultyScore / (words.length : ℚ) * 5)))

/-- Does `p` occur as a contiguous substring of `l`? -/
def hasSubstr : List Char → List Char → Bool
  | [], p => p.isEmpty
  | l@(_ :: rest), p => leadsWith p l || hasSubstr rest p

/-- `phrase.split(/\s+/).length` of `analyzeDifficulty` — note: no trim. -/
def phraseWordCount (phrase : String) : ℕ := (jsSplitWs phrase.data).length

/-- `phrase.replace(/\s+/g, '').length / wordCount` of `analyzeDifficulty`:
total non-whitespace characters over the word count. -/
def phraseAvgWordLength (phrase : String) : ℚ :=
  ((phrase.data.filter (fun c => !jsSpace c)).length : ℚ) / (phraseWordCount phrase : ℚ)

/-- `/th|sh|ch|ng|qu|ck|ph/.test(phrase.toLowerCase())`. -/
def phraseHasComplexSounds (phrase : String) : Bool :=
  let l := lowerStr phrase.data
  hasSubstr l "th".data || hasSubstr l "sh".data || hasSubstr l "ch".data ||
  hasSubstr l "ng".data || hasSubstr l "qu".data || hasSubstr l "ck".data ||
  hasSubstr l "ph".data

/-- Attempt to complete a match of `(\w)\w*\s+\w*\1` whose captured character
`c` has just been read, with `l` the remaining text.  Because `\w` and `\s`
are disjoint classes, the greedy/backtracking choices of the regex engine are
forced: `\w*` must consume word characters exactly up to the whitespace run,
`\s+` must consume the whole run, and the final `\w*\1` succeeds iff `c`
occurs in the word-character run that follows.  So the deterministic scan
below decides matchability from this start position. -/
def ttAfter (c : Char) (l : List Char) : Bool :=
  let afterRun := l.dropWhile isWordChar
  let ws := afterRun.takeWhile jsSpace
  let next := afterRun.dropWhile jsSpace
  !ws.isEmpty && (next.takeWhile isWordChar).contains c

/-- `phrase.toLowerCase().match(/(\w)\w*\s+\w*\1/g) !== null`: does the
tongue-twister regex match anywhere?  Try every start position. -/
def ttMatch : List Char → Bool
  | [] => false
  | c :: rest => (isWordChar c && ttAfter c rest) || ttMatch rest

/-- The `hasTongueTwister` test of `analyzeDifficulty` (phrases.ts). -/
def phraseHasTongueTwister (phrase : String) : Bool := ttMatch (lowerStr phrase.data)

/-- `analyzeDifficulty(phrase)` (phrases.ts). -/
def analyzeDifficulty (phrase : String) : String :=
  if 15 < phraseWordCount phrase ∨ 6 < phraseAvgWordLength phrase ∨
      phraseHasTongueTwister phrase = true then "advanced"
  else if 10 < phraseWordCount phrase ∨ 5 < phraseAvgWordLength phrase ∨
      phraseHasComplexSounds phrase = true then "intermediate"
  else "basic"

/-- `getLetterGrade(score)` (phonemeUtils.ts); `FeedbackAgent.getLetterGrade`
delegates to it unchanged. -/
def getLetterGrade (score : ℚ) : String :=
  if 97 ≤ score then "A+"
  else if 93 ≤ score then "A"
  else if 90 ≤ score then "A-"
  else if 87 ≤ score then "B+"
  else if 83 ≤ score then "B"
  else if 80 ≤ score then "B-"
  else if 77 ≤ score then "C+"
  else if 73 ≤ score then "C"
  else if 70 ≤ score then "C-"
  else if 67 ≤ score then "D+"
  else if 65 ≤ score then "D"
  else "F"

/-- `generateMotivationalMessage(currentScore, previousScores)`
(FeedbackAgent.ts).  `previousScores.slice(-3)` is `drop (length - 3)`, and
the divisor is `Math.min(3, previousScores.length)`. -/
def generateMotivationalMessage (currentScore : ℚ) (previousScores : List ℚ) : String :=
  if previousScores = [] then
    "Welcome to pronunciation practice! Let\x27s start building your speaking confidence! 🚀"
  else
    let recentAverage :=
      (previousScores.drop (previousScores.length - 3)).sum /
        ((min 3 previousScores.length : ℕ) : ℚ)
    let improvement := currentScore - recentAverage
    if 10 < improvement then
      "Amazing improvement! You\x27re really getting the hang of this! 🌟"
    else if 5 < improvement then
      "Great progress! Keep up the excellent work! 📈"
    else if 0 < improvement then
      "Nice job! You\x27re steadily improving! 👍"
    else if -5 < improvement then
      "Stay consistent! Small daily practice leads to big improvements! 💪"
    else
      "Don\x27t worry about one session. Focus on the long-term progress! 🌱"

/-! ### Definitions written from the specification text, for refinement claims -/

/-- `clamp(x, lo, hi)` over the rationals, as used by the spec's formulas. -/
def clampQ (x lo hi : ℚ) : ℚ := max lo (min hi x)

/-- The scoring formula exactly as the spec's invariant states it:
`round(clamp(base*0.7 + orderBonus*0.2 - lengthPenalty*0.1, 0, 100))` with the
base similarity left unrounded (`sum of credits / max word count * 100`). -/
def scoreClaimedExact (userText targetText : String) : ℤ :=
  let uw := strWordsLower userText
  let tw := strWordsLower targetText
  let base : ℚ := matchSum uw tw / ((max uw.length tw.length : ℕ) : ℚ) * 100
  let penalty : ℚ :=
    |((strWords userText).length : ℚ) - ((strWords targetText).length : ℚ)| /
      ((max (strWords userText).length (strWords targetText).length : ℕ) : ℚ) * 30
  let bonus : ℚ := (maxConsecutive uw tw : ℚ) / (tw.length : ℚ) * 20
  jsRound (clampQ (base * (7/10) + bonus * (2/10) - penalty * (1/10)) 0 100)

/-- The scoring formula amended to match the code: the base similarity is
rounded to the nearest integer (it is the value `comparePhonemes` returns)
before the weights are applied. -/
def scoreSpecRounded (userText targetText : String) : ℤ :=
  let uw := strWordsLower userText
  let tw := strWordsLower targetText
  let base : ℚ :=
    (jsRound (matchSum uw tw / ((max uw.length tw.length : ℕ) : ℚ) * 100) : ℚ)
  let penalty : ℚ :=
    |((strWords userText).length : ℚ) - ((strWords targetText).length : ℚ)| /
      ((max (strWords userText).length (strWords targetText).length : ℕ) : ℚ) * 30
  let bonus : ℚ := (maxConsecutive uw tw : ℚ) / (tw.length : ℚ) * 20
  jsRound (clampQ (base * (7/10) + bonus * (2/10) - penalty * (1/10)) 0 100)

/-- The word present at position `i` of a word list, a "word" being a nonempty
token (splitting an empty or whitespace-only text yields one empty token,
which is not a word). -/
def wordAt (ws : List (List Char)) (i : ℕ) : Option (List Char) :=
  match ws[i]? with
  | some w => if w = [] then none else some w
  | none => none

/-- The spec's description of the missed-word list: positions `i` below the
larger word count where only the target has a word. -/
def missedSpec (uw tw : List (List Char)) : List (List Char) :=
  (List.range (max uw.length tw.length)).filterMap fun i =>
    match wordAt tw i, wordAt uw i with
    | some w, none => some w
    | _, _ => none

/-- The spec's description of the added-word list: positions where only the
user has a word. -/
def addedSpec (uw tw : List (List Char)) : List (List Char) :=
  (List.range (max uw.length tw.length)).filterMap fun i =>
    match wordAt tw i, wordAt uw i with
    | none, some w => some w
    | _, _ => none

/-- The spec's description of the substitution list: positions where both
words are present and unequal, recorded as `{original, spoken}`. -/
def substSpec (uw tw : List (List Char)) : List Substitution :=
  (List.range (max uw.length tw.length)).filterMap fun i =>
    match wordAt tw i, wordAt uw i with
    | some w, some v => if w = v then none else some ⟨w, v⟩
    | _, _ => none

/-- The motivational-message selection as the spec states it: the recent
average is the arithmetic mean of the last 3 prior scores (of all of them when
fewer than 3 exist). -/
def motivationalSpec (currentScore : ℚ) (previousScores : List ℚ) : String :=
  if previousScores = [] then
    "Welcome to pronunciation practice! Let\x27s start building your speaking confidence! 🚀"
  else
    let lastThree := previousScores.drop (previousScores.length - 3)
    let recentAverage := lastThree.sum / (lastThree.length : ℚ)
    let improvement := currentScore - recentAverage
    if 10 < improvement then
      "Amazing improvement! You\x27re really getting the hang of this! 🌟"
    else if 5 < improvement then
      "Great progress! Keep up the excellent work! 📈"
    else if 0 < improvement then
      "Nice job! You\x27re steadily improving! 👍"
    else if -5 < improvement then
      "Stay consistent! Small daily practice leads to big improvements! 💪"
    else
      "Don\x27t worry about one session. Focus on the long-term progress! 🌱"

/-- The numeric-difficulty formula as the claim states it:
`round(clamp(sum / wordCount * 5, 1, 10))`. -/
def difficultyFormulaSpec (text : String) : ℤ :=
  let words := jsSplitWs (lowerStr text.data)
  let sum : ℚ :=
    (2 * (words.filter (fun w => 7 < w.length)).length : ℚ) +
    (countConsonantClusters text.data : ℚ) +
    (countUncommonSounds text.data : ℚ) + (detectTongueTwisters text.data : ℚ)
  jsRound (clampQ (sum / (words.length : ℚ) * 5) 1 10)

/-- The first character, if any, is not whitespace. -/
def headNotWS : List Char → Bool
  | [] => true
  | c :: _ => !jsSpace c

/-- The last character, if any, is not whitespace. -/
def lastNotWS : List Char → Bool
  | [] => true
  | [c] => !jsSpace c
  | _ :: c :: rest => lastNotWS (c :: rest)

/-! ### Helper lemmas: lowercasing commutes with the whitespace functions -/

lemma jsSpace_jsLowerChar (c : Char) : jsSpace (jsLowerChar c) = jsSpace c := by
  have htab : ∀ p ∈ lowerPairs, jsSpace p.1 = false ∧ jsSpace p.2 = false := by decide
  rw [jsLowerChar]
  cases hf : lowerPairs.find? (fun p => p.1 == c) with
  | none => rfl
  | some p =>
      have hmem : p ∈ lowerPairs := List.mem_of_find?_eq_some hf
      have hc : p.1 = c := by
        have := List.find?_some hf
        exact eq_of_beq this
      rw [← hc, (htab p hmem).1, (htab p hmem).2]

lemma lowerStr_dropWhile (l : List Char) :
    (lowerStr l).dropWhile jsSpace = lowerStr (l.dropWhile jsSpace) := by
  induction l with
  | nil => rfl
  | cons c l ih =>
      by_cases h : jsSpace c
      · simpa [lowerStr, List.dropWhile_cons, jsSpace_jsLowerChar, h] using ih
      · simp [lowerStr, List.dropWhile_cons, jsSpace_jsLowerChar, h]

lemma lowerStr_reverse (l : List Char) : (lowerStr l).reverse = lowerStr l.reverse := by
  simp [lowerStr]

lemma jsTrim_lowerStr (l : List Char) : jsTrim (lowerStr l) = lowerStr (jsTrim l) := by
  rw [jsTrim, jsTrim, lowerStr_dropWhile, lowerStr_reverse, lowerStr_dropWhile,
    lowerStr_reverse]

lemma jsSplitAux_lowerStr (l : List Char) : ∀ (flag : Bool) (acc : List Char),
    jsSplitAux flag (lowerStr l) (lowerStr acc) = (jsSplitAux flag l acc).map lowerStr := by
  induction l with
  | nil =>
      intro flag acc
      cases flag <;> simp [jsSplitAux, lowerStr]
  | cons c l ih =>
      intro flag acc
      have hl : lowerStr (c :: l) = jsLowerChar c :: lowerStr l := rfl
      have hnil : ([] : List Char) = lowerStr [] := rfl
      have hcons : jsLowerChar c :: lowerStr acc = lowerStr (c :: acc) := rfl
      rw [hl, jsSplitAux, jsSpace_jsLowerChar]
      conv_rhs => rw [jsSplitAux]
      by_cases h : jsSpace c
      · cases flag
        · simp only [h, if_true, Bool.false_eq_true, if_false, List.map_cons]
          rw [lowerStr_reverse, hnil, ih true []]
          rfl
        · simp only [h, if_true]
          exact ih true acc
      · simp only [h, Bool.false_eq_true, if_false]
        rw [hcons]
        exact ih false (c :: acc)

lemma strWordsLower_eq_map (s : String) :
    strWordsLower s = (strWords s).map lowerStr := by
  have h := jsSplitAux_lowerStr (jsTrim s.data) false []
  rw [strWordsLower, strWords, jsSplitWs, jsSplitWs, jsTrim_lowerStr]
  simpa [lowerStr] using h

lemma length_strWordsLower (s : String) :
    (strWordsLower s).length = (strWords s).length := by
  rw [strWordsLower_eq_map]; simp

/-! ### Helper lemmas: the split is never empty -/

lemma jsSplitAux_ne_nil (l : List Char) : ∀ (flag : Bool) (acc : List Char),
    jsSplitAux flag l acc ≠ [] := by
  induction l with
  | nil => intro flag acc; cases flag <;> simp [jsSplitAux]
  | cons c l ih =>
      intro flag acc
      rw [jsSplitAux]
      by_cases h : jsSpace c
      · cases flag <;> simp [h, ih]
      · simp [h, ih]

lemma length_strWords_pos (s : String) : 0 < (strWords s).length :=
  List.length_pos.mpr (jsSplitAux_ne_nil _ _ _)

lemma length_strWordsLower_pos (s : String) : 0 < (strWordsLower s).length :=
  List.length_pos.mpr (jsSplitAux_ne_nil _ _ _)

/-! ### Helper lemmas: JS rounding -/

lemma jsRound_intCast (n : ℤ) : jsRound (n : ℚ) = n := by
  rw [jsRound, add_comm, Int.floor_add_int, show ⌊(1/2 : ℚ)⌋ = 0 from by
    rw [Int.floor_eq_iff]
    norm_num ]
  omega

lemma jsRound_mono {x y : ℚ} (h : x ≤ y) : jsRound x ≤ jsRound y :=
  Int.floor_le_floor (by linarith)

lemma jsRound_eq_of {x : ℚ} {n : ℤ} (h1 : (n : ℚ) ≤ x + 1/2) (h2 : x + 1/2 < n + 1) :
    jsRound x = n := by
  rw [jsRound]; exact Int.floor_eq_iff.mpr ⟨h1, by exact_mod_cast h2⟩

lemma clamp_jsRound_max_min (x : ℚ) (lo hi : ℤ) (h : lo ≤ hi) :
    max lo (min hi (jsRound x)) = jsRound (clampQ x (lo : ℚ) (hi : ℚ)) := by
  have hQ : (lo : ℚ) ≤ (hi : ℚ) := by exact_mod_cast h
  rcases le_total x (lo : ℚ) with hlo | hlo
  · have h1 : jsRound x ≤ lo := by
      have := jsRound_mono hlo; rwa [jsRound_intCast] at this
    have h2 : clampQ x (lo : ℚ) (hi : ℚ) = (lo : ℚ) := by
      rw [clampQ, min_eq_right (le_trans hlo hQ), max_eq_left hlo]
    rw [h2, jsRound_intCast]; omega
  · rcases le_total x (hi : ℚ) with hhi | hhi
    · have hl : lo ≤ jsRound x := by
        have := jsRound_mono hlo; rwa [jsRound_intCast] at this
      have hh : jsRound x ≤ hi := by
        have := jsRound_mono hhi; rwa [jsRound_intCast] at this
      have h2 : clampQ x (lo : ℚ) (hi : ℚ) = x := by
        rw [clampQ, min_eq_right hhi, max_eq_right hlo]
      rw [h2]; omega
    · have hh : hi ≤ jsRound x := by
        have := jsRound_mono hhi; rwa [jsRound_intCast] at this
      have h2 : clampQ x (lo : ℚ) (hi : ℚ) = (hi : ℚ) := by
        rw [clampQ, min_eq_left hhi, max_eq_right hQ]
      rw [h2, jsRound_intCast]; omega

lemma clamp_jsRound_min_max (x : ℚ) (lo hi : ℤ) (h : lo ≤ hi) :
    min hi (max lo (jsRound x)) = jsRound (clampQ x (lo : ℚ) (hi : ℚ)) := by
  rw [← clamp_jsRound_max_min x lo hi h]; omega

/-! ### Helper lemmas: splitting a trimmed nonempty text yields nonempty words -/

lemma lastNotWS_cons_of_ne {c : Char} {l : List Char} (h : l ≠ []) :
    lastNotWS (c :: l) = lastNotWS l := by
  cases l with
  | nil => exact absurd rfl h
  | cons d rest => rfl

lemma lastNotWS_of_cons {c : Char} {l : List Char} (h : lastNotWS (c :: l) = true) :
    lastNotWS l = true := by
  cases l with
  | nil => rfl
  | cons d rest => rwa [lastNotWS_cons_of_ne (by simp)] at h

lemma rest_ne_nil_of_ws {c : Char} {l : List Char} (hws : jsSpace c = true)
    (h : lastNotWS (c :: l) = true) : l ≠ [] := by
  intro hl
  subst hl
  rw [show lastNotWS [c] = !jsSpace c from rfl, hws] at h
  simp at h

lemma jsSplitAux_all_ne (l : List Char) : ∀ (flag : Bool) (acc : List Char),
    lastNotWS l = true →
    (flag = true → l ≠ [] ∧ acc = []) →
    (flag = false → acc ≠ [] ∨ (l ≠ [] ∧ headNotWS l = true)) →
    ∀ w ∈ jsSplitAux flag l acc, w ≠ [] := by
  induction l with
  | nil =>
      intro flag acc _ hT hF
      cases flag with
      | true => exact absurd rfl (hT rfl).1
      | false =>
          have hacc : acc ≠ [] := by
            rcases hF rfl with h | ⟨h, _⟩
            · exact h
            · exact absurd rfl h
          intro w hw
          simp only [jsSplitAux, Bool.false_eq_true, if_false, List.mem_singleton] at hw
          subst hw
          simpa using hacc
  | cons c l ih =>
      intro flag acc hlast hT hF
      rw [jsSplitAux]
      by_cases h : jsSpace c
      · have hrest : l ≠ [] := rest_ne_nil_of_ws h hlast
        have hlast' : lastNotWS l = true := lastNotWS_of_cons hlast
        cases flag with
        | true =>
            simp only [h, if_true]
            exact ih true acc hlast' (fun _ => ⟨hrest, (hT rfl).2⟩) (by simp)
        | false =>
            have hacc : acc ≠ [] := by
              rcases hF rfl with ha | ⟨_, hh⟩
              · exact ha
              · rw [show headNotWS (c :: l) = !jsSpace c from rfl, h] at hh
                simp at hh
            simp only [h, if_true, Bool.false_eq_true, if_false]
            intro w hw
            rcases List.mem_cons.mp hw with hw | hw
            · subst hw; simpa using hacc
            · exact ih true [] hlast' (fun _ => ⟨hrest, rfl⟩) (by simp) w hw
      · have hlast' : lastNotWS l = true := lastNotWS_of_cons hlast
        simp only [h, Bool.false_eq_true, if_false]
        exact ih false (c :: acc) hlast' (by simp) (fun _ => Or.inl (by simp))

lemma headNotWS_dropWhile (l : List Char) :
    headNotWS (l.dropWhile jsSpace) = true := by
  induction l with
  | nil => rfl
  | cons c l ih =>
      rw [List.dropWhile_cons]
      by_cases h : jsSpace c
      · simpa [h] using ih
      · simp [h, headNotWS]

lemma lastNotWS_dropWhile {l : List Char} (p : Char → Bool)
    (h : lastNotWS l = true) : lastNotWS (l.dropWhile p) = true := by
  induction l with
  | nil => rfl
  | cons c l ih =>
      rw [List.dropWhile_cons]
      by_cases hp : p c
      · simpa [hp] using ih (lastNotWS_of_cons h)
      · simpa [hp] using h

lemma lastNotWS_reverse (l : List Char) : lastNotWS l.reverse = headNotWS l := by
  cases l with
  | nil => rfl
  | cons c l =>
      rw [List.reverse_cons]
      have : ∀ (m : List Char) (d : Char), lastNotWS (m ++ [d]) = !jsSpace d := by
        intro m d
        induction m with
        | nil => rfl
        | cons e m ihm =>
            rw [List.cons_append, lastNotWS_cons_of_ne (by simp), ihm]
      rw [this, headNotWS]

lemma headNotWS_reverse (l : List Char) : headNotWS l.reverse = lastNotWS l := by
  have := lastNotWS_reverse l.reverse
  rw [List.reverse_reverse] at this
  exact this.symm

lemma headNotWS_jsTrim (l : List Char) : headNotWS (jsTrim l) = true := by
  rw [jsTrim, headNotWS_reverse]
  exact lastNotWS_dropWhile jsSpace (by rw [lastNotWS_reverse]; exact headNotWS_dropWhile l)

lemma lastNotWS_jsTrim (l : List Char) : lastNotWS (jsTrim l) = true := by
  rw [jsTrim, lastNotWS_reverse]
  exact headNotWS_dropWhile _

/-- Splitting a trimmed, nonempty text produces only nonempty words. -/
lemma strWords_all_ne {s : String} (h : jsTrim s.data ≠ []) :
    ∀ w ∈ strWords s, w ≠ [] := by
  rw [strWords, jsSplitWs]
  exact jsSplitAux_all_ne _ false [] (lastNotWS_jsTrim _)
    (by simp) (fun _ => Or.inr ⟨h, headNotWS_jsTrim _⟩)

lemma strWordsLower_all_ne {s : String} (h : jsTrim s.data ≠ []) :
    ∀ w ∈ strWordsLower s, w ≠ [] := by
  rw [strWordsLower_eq_map]
  intro w hw
  rcases List.mem_map.mp hw with ⟨v, hv, rfl⟩
  have := strWords_all_ne h v hv
  simp only [lowerStr, ne_eq, List.map_eq_nil_iff]
  exact this

/-! ### Helper lemmas: the score of positionally identical word lists -/

lemma matchSum_self (l : List (List Char)) : matchSum l l = (l.length : ℚ) := by
  induction l with
  | nil => simp [matchSum]
  | cons w l ih =>
      rw [matchSum, List.zip_cons_cons, List.map_cons, List.sum_cons,
        show wordCredit w w = 1 from by rw [wordCredit, if_pos rfl]]
      rw [matchSum] at ih
      rw [ih]
      simp only [List.length_cons]
      push_cast
      ring

lemma maxConsecAux_self (l : List (List Char)) : ∀ (cur best : ℕ), cur ≤ best →
    maxConsecAux (l.zip l) cur best = max best (cur + l.length) := by
  induction l with
  | nil =>
      intro cur best hcb
      simp only [List.zip_nil_right, maxConsecAux, List.length_nil]
      omega
  | cons w l ih =>
      intro cur best hcb
      rw [List.zip_cons_cons, maxConsecAux, if_pos rfl,
        ih (cur + 1) (max best (cur + 1)) (le_max_right _ _)]
      simp only [List.length_cons]
      omega

lemma maxConsecutive_self (l : List (List Char)) : maxConsecutive l l = l.length := by
  rw [maxConsecutive, maxConsecAux_self _ _ _ le_rfl]
  omega

/-- Core computation shared by several claims: whenever the two texts are
nonempty and have identical lowercased word lists and identical raw word
counts, `compareTexts` returns exactly 74 — the phoneme score is 100, the
bonus is the full 20, the penalty is 0, and
`100·0.7 + 20·0.2 = 74`. -/
lemma compareTexts_eq_74 {u t : String} (hu : u.data ≠ []) (ht : t.data ≠ [])
    (hw : strWordsLower u = strWordsLower t)
    (hc : (strWords u).length = (strWords t).length) :
    compareTexts u t = 74 := by
  have hn : (0 : ℕ) < (strWordsLower t).length := length_strWordsLower_pos t
  have hnQ : ((strWordsLower t).length : ℚ) ≠ 0 := by
    exact_mod_cast Nat.pos_iff_ne_zero.mp hn
  have hph : comparePhonemes u t = 100 := by
    rw [comparePhonemes, if_neg (by push_neg; exact ⟨hu, ht⟩)]
    simp only [hw, matchSum_self, max_self]
    rw [div_self hnQ, one_mul]
    rw [show ((100 : ℚ)) = ((100 : ℤ) : ℚ) from by norm_num, jsRound_intCast]
  have hpen : calculateLengthPenalty u t = 0 := by
    rw [calculateLengthPenalty]
    simp only [hc]
    simp
  have hbon : calculateWordOrderBonus u t = 20 := by
    rw [calculateWordOrderBonus]
    simp only [hw, maxConsecutive_self]
    rw [div_self hnQ, one_mul]
  rw [compareTexts, if_neg (by push_neg; exact ⟨hu, ht⟩)]
  simp only [hph, hpen, hbon]
  rw [show ((100 : ℤ) : ℚ) * (7/10) + (20 : ℚ) * (2/10) - (0 : ℚ) * (1/10) = ((74 : ℤ) : ℚ)
    from by push_cast; norm_num ]
  rw [jsRound_intCast]
  omega

/-! ### Helper lemmas: the score formula and case-insensitivity -/

lemma clamp_jsRound_0_100 (x : ℚ) :
    max 0 (min 100 (jsRound x)) = jsRound (clampQ x 0 100) := by
  have h := clamp_jsRound_max_min x 0 100 (by norm_num)
  norm_num at h
  exact h

lemma clamp_jsRound_1_10 (x : ℚ) :
    min 10 (max 1 (jsRound x)) = jsRound (clampQ x 1 10) := by
  have h := clamp_jsRound_min_max x 1 10 (by norm_num)
  norm_num at h
  exact h

lemma data_ne_of_jsTrim {s : String} (h : jsTrim s.data ≠ []) : s.data ≠ [] := by
  intro hs
  rw [hs] at h
  exact h rfl

lemma strWordsLower_congr {a b : String} (h : lowerStr a.data = lowerStr b.data) :
    strWordsLower a = strWordsLower b := by
  rw [strWordsLower, strWordsLower, h]

lemma strWords_length_of_lower {a b : String} (h : lowerStr a.data = lowerStr b.data) :
    (strWords a).length = (strWords b).length := by
  rw [← length_strWordsLower, ← length_strWordsLower, strWordsLower_congr h]

lemma data_ne_of_lower {a b : String} (h : lowerStr a.data = lowerStr b.data)
    (ha : a.data ≠ []) : b.data ≠ [] := by
  intro hb
  rw [hb] at h
  simp only [lowerStr, List.map_nil, List.map_eq_nil_iff] at h
  exact ha h

/-- `compareTexts` in closed form on nonempty inputs: the code's clamp of the
rounded weighted sum equals the rounded clamp of the weighted sum built from
the rounded base (the `scoreSpecRounded` formula). -/
lemma compareTexts_formula {u t : String} (hu : u.data ≠ []) (ht : t.data ≠ []) :
    compareTexts u t = scoreSpecRounded u t := by
  have hmax : max (strWords u).length (strWords t).length ≠ 0 := by
    have := length_strWords_pos u
    omega
  rw [compareTexts, if_neg (by push_neg; exact ⟨hu, ht⟩), scoreSpecRounded]
  rw [show comparePhonemes u t =
      jsRound (matchSum (strWordsLower u) (strWordsLower t) /
        ((max (strWordsLower u).length (strWordsLower t).length : ℕ) : ℚ) * 100)
    from by rw [comparePhonemes, if_neg (by push_neg; exact ⟨hu, ht⟩)] ]
  rw [show calculateLengthPenalty u t =
      |((strWords u).length : ℚ) - ((strWords t).length : ℚ)| /
        ((max (strWords u).length (strWords t).length : ℕ) : ℚ) * 30
    from by rw [calculateLengthPenalty, if_neg hmax] ]
  rw [calculateWordOrderBonus]
  exact clamp_jsRound_0_100 _

/-- `compareTexts` is invariant under any change of the two inputs that
preserves their lowercasings. -/
lemma compareTexts_congr_lower {u u' t t' : String}
    (hu : lowerStr u.data = lowerStr u'.data)
    (ht : lowerStr t.data = lowerStr t'.data) :
    compareTexts u t = compareTexts u' t' := by
  by_cases hg : u.data = [] ∨ t.data = []
  · have hg' : u'.data = [] ∨ t'.data = [] := by
      rcases hg with h | h
      · left
        by_contra hne
        exact (data_ne_of_lower hu.symm hne) h
      · right
        by_contra hne
        exact (data_ne_of_lower ht.symm hne) h
    rw [compareTexts, if_pos hg, compareTexts, if_pos hg']
  · push_neg at hg
    have hg' : ¬(u'.data = [] ∨ t'.data = []) := by
      push_neg
      exact ⟨data_ne_of_lower hu hg.1, data_ne_of_lower ht hg.2⟩
    rw [compareTexts, if_neg (by push_neg; exact hg), compareTexts, if_neg hg']
    rw [show comparePhonemes u t = comparePhonemes u' t' from by
      rw [comparePhonemes, comparePhonemes, if_neg (by push_neg; exact hg), if_neg hg',
        strWordsLower_congr hu, strWordsLower_congr ht] ]
    rw [show calculateLengthPenalty u t = calculateLengthPenalty u' t' from by
      rw [calculateLengthPenalty, calculateLengthPenalty,
        strWords_length_of_lower hu, strWords_length_of_lower ht] ]
    rw [show calculateWordOrderBonus u t = calculateWordOrderBonus u' t' from by
      rw [calculateWordOrderBonus, calculateWordOrderBonus,
        strWordsLower_congr hu, strWordsLower_congr ht] ]

/-! ### Claim C2 -/

/-- C2 (amended): for inputs that are non-empty after trimming, `compareTexts`
equals `round(clamp(base·0.7 + orderBonus·0.2 − lengthPenalty·0.1, 0, 100))`
where the base similarity is **rounded to the nearest integer** (the value
`comparePhonemes` returns) before the weights are applied; and the result is
always an integer in `[0, 100]` (for all inputs whatsoever). -/
theorem spec_c2_score_formula :
    (∀ u t : String, jsTrim u.data ≠ [] → jsTrim t.data ≠ [] →
      compareTexts u t = scoreSpecRounded u t) ∧
    (∀ u t : String, 0 ≤ compareTexts u t ∧ compareTexts u t ≤ 100) := by
  constructor
  · intro u t hu ht
    exact compareTexts_formula (data_ne_of_jsTrim hu) (data_ne_of_jsTrim ht)
  · intro u t
    by_cases hg : u.data = [] ∨ t.data = []
    · rw [compareTexts, if_pos hg]
      norm_num
    · rw [compareTexts, if_neg hg]
      exact ⟨le_max_left _ _, max_le (by norm_num) (min_le_left _ _)⟩

/-- Witness for C2: the formula theorem applied at a concrete input. -/
theorem spec_c2_score_formula_witness :
    jsTrim "hi there".data ≠ [] ∧ jsTrim "hi world".data ≠ [] ∧
    compareTexts "hi there" "hi world" = scoreSpecRounded "hi there" "hi world" :=
  ⟨by decide, by decide,
    spec_c2_score_formula.1 "hi there" "hi world" (by decide) (by decide)⟩

/-- Counterexample to C2 as stated: with the unrounded base of the claim's
formula, the input `("a", "a a a")` would score 23, but the code rounds the
base (to 33) inside `comparePhonemes` and returns 22. -/
theorem spec_c2_counterexample :
    compareTexts "a" "a a a" = 22 ∧ scoreClaimedExact "a" "a a a" = 23 := by
  have h1 : strWordsLower "a" = [['a']] := by decide
  have h2 : strWordsLower "a a a" = [['a'], ['a'], ['a']] := by decide
  have h3 : strWords "a" = [['a']] := by decide
  have h4 : strWords "a a a" = [['a'], ['a'], ['a']] := by decide
  have hms : matchSum [['a']] [['a'], ['a'], ['a']] = 1 := by
    simp [matchSum, wordCredit]
  have hmc : maxConsecutive [['a']] [['a'], ['a'], ['a']] = 1 := by decide
  constructor
  · have hph : comparePhonemes "a" "a a a" = 33 := by
      rw [comparePhonemes, if_neg (by decide)]
      simp only [h1, h2, hms, List.length_cons, List.length_nil]
      rw [show max 1 3 = 3 from by norm_num]
      rw [show (1 : ℚ) / ((3 : ℕ) : ℚ) * 100 = 100/3 from by push_cast; ring]
      apply jsRound_eq_of <;> norm_num
    have hpen : calculateLengthPenalty "a" "a a a" = 20 := by
      rw [calculateLengthPenalty]
      simp only [h3, h4, List.length_cons, List.length_nil]
      rw [if_neg (by norm_num)]
      push_cast
      norm_num
    have hbon : calculateWordOrderBonus "a" "a a a" = 20/3 := by
      rw [calculateWordOrderBonus]
      simp only [h1, h2, hmc, List.length_cons, List.length_nil]
      push_cast
      ring
    rw [compareTexts, if_neg (by decide)]
    simp only [hph, hpen, hbon]
    rw [show ((33 : ℤ) : ℚ) * (7/10) + (20/3 : ℚ) * (2/10) - (20 : ℚ) * (1/10) = 673/30
      from by push_cast; ring ]
    rw [show jsRound (673/30) = 22 from by apply jsRound_eq_of <;> norm_num]
    decide
  · rw [scoreClaimedExact]
    simp only [h1, h2, h3, h4, hms, hmc, List.length_cons, List.length_nil]
    rw [show max 1 3 = 3 from by norm_num]
    rw [show (1 : ℚ) / ((3 : ℕ) : ℚ) * 100 * (7/10) +
        ((1 : ℕ) : ℚ) / ((3 : ℕ) : ℚ) * 20 * (2/10) -
        |((1 : ℕ) : ℚ) - ((3 : ℕ) : ℚ)| / ((3 : ℕ) : ℚ) * 30 * (1/10) = 68/3
      from by push_cast; norm_num ]
    rw [show clampQ (68/3) 0 100 = 68/3 from by
      rw [clampQ, min_eq_right (by norm_num), max_eq_right (by norm_num)] ]
    apply jsRound_eq_of <;> norm_num

/-! ### Claim C1 -/

/-- C1 (amended): for every string that is non-empty after trimming,
`compareTexts(s, s) = 74` (not 100 — the weights `100·0.7 + 20·0.2` cap the
score at 74); more generally `compareTexts(u, t) = 74` whenever `u` and `t`
are identical up to letter case; and case differences alone never change the
score of any comparison. -/
theorem spec_c1_identity_score :
    (∀ s : String, jsTrim s.data ≠ [] → compareTexts s s = 74) ∧
    (∀ u t : String, lowerStr u.data = lowerStr t.data → jsTrim u.data ≠ [] →
      compareTexts u t = 74) ∧
    (∀ u u' t t' : String, lowerStr u.data = lowerStr u'.data →
      lowerStr t.data = lowerStr t'.data →
      compareTexts u t = compareTexts u' t') := by
  refine ⟨fun s hs => ?_, fun u t hl hu => ?_,
    fun u u' t t' hu ht => compareTexts_congr_lower hu ht⟩
  · exact compareTexts_eq_74 (data_ne_of_jsTrim hs) (data_ne_of_jsTrim hs) rfl rfl
  · exact compareTexts_eq_74 (data_ne_of_jsTrim hu)
      (data_ne_of_lower hl (data_ne_of_jsTrim hu))
      (strWordsLower_congr hl) (strWords_length_of_lower hl)

/-- Witness for C1: the theorem applied at `s = "hello"`. -/
theorem spec_c1_identity_score_witness :
    jsTrim "hello".data ≠ [] ∧ compareTexts "hello" "hello" = 74 :=
  ⟨by decide, spec_c1_identity_score.1 "hello" (by decide)⟩

/-- Counterexample to C1 as stated: the claim's own example
`compareTexts("Hello World", "hello world")` returns 74, not 100. -/
theorem spec_c1_counterexample :
    compareTexts "Hello World" "hello world" = 74 ∧
    compareTexts "Hello World" "hello world" ≠ 100 := by
  have h : compareTexts "Hello World" "hello world" = 74 :=
    compareTexts_eq_74 (by decide) (by decide) (by decide) (by decide)
  exact ⟨h, by rw [h]; decide⟩

/-! ### Claim C3 -/

/-- C3 (amended): if either argument of `compareTexts` is the empty string
(the guard tests JS falsiness of the raw, untrimmed string), the score is 0 —
in particular `score("", "") = 0`, `score("", "x") = 0`, `score("x", "") = 0`;
and `analyzeErrors` on two empty strings yields the empty error report. -/
theorem spec_c3_empty_inputs :
    (∀ t : String, compareTexts "" t = 0) ∧
    (∀ u : String, compareTexts u "" = 0) ∧
    compareTexts "" "x" = 0 ∧ compareTexts "x" "" = 0 ∧
    analyzeErrors "" "" = ⟨[], [], []⟩ := by
  refine ⟨fun t => ?_, fun u => ?_, ?_, ?_, by decide⟩
  · rw [compareTexts, if_pos (Or.inl rfl)]
  · rw [compareTexts, if_pos (Or.inr rfl)]
  · rw [compareTexts, if_pos (Or.inl rfl)]
  · rw [compareTexts, if_pos (Or.inr rfl)]

/-- Counterexample to C3 as stated: a whitespace-only string is empty after
trimming, yet compared against itself it scores 74, because the code's
emptiness guard tests the raw string, which `"  "` passes. -/
theorem spec_c3_counterexample :
    jsTrim "  ".data = [] ∧ compareTexts "  " "  " = 74 ∧
    compareTexts "  " "  " ≠ 0 := by
  have h : compareTexts "  " "  " = 74 :=
    compareTexts_eq_74 (by decide) (by decide) rfl rfl
  exact ⟨by decide, h, by rw [h]; decide⟩

/-! ### Claim C7 -/

/-- C7 (amended): for inputs that are non-empty after trimming, the score
depends only on the word sequences — adding/removing leading or trailing
whitespace or changing the length of internal whitespace runs (anything
preserving `trim().split(/\s+/)`) leaves `compareTexts` unchanged; the claim's
example `compareTexts("  hello   world  ", "hello world")` equals the
identical-texts score, which is 74 (not 100). -/
theorem spec_c7_whitespace_insensitivity :
    (∀ u u' t t' : String, jsTrim u.data ≠ [] → jsTrim u'.data ≠ [] →
      jsTrim t.data ≠ [] → jsTrim t'.data ≠ [] →
      strWords u = strWords u' → strWords t = strWords t' →
      compareTexts u t = compareTexts u' t') ∧
    compareTexts "  hello   world  " "hello world" = 74 := by
  constructor
  · intro u u' t t' hu hu' ht ht' hwu hwt
    have hwl_u : strWordsLower u = strWordsLower u' := by
      rw [strWordsLower_eq_map, strWordsLower_eq_map, hwu]
    have hwl_t : strWordsLower t = strWordsLower t' := by
      rw [strWordsLower_eq_map, strWordsLower_eq_map, hwt]
    rw [compareTexts,
      if_neg (by push_neg; exact ⟨data_ne_of_jsTrim hu, data_ne_of_jsTrim ht⟩),
      compareTexts,
      if_neg (by push_neg; exact ⟨data_ne_of_jsTrim hu', data_ne_of_jsTrim ht'⟩)]
    rw [show comparePhonemes u t = comparePhonemes u' t' from by
      rw [comparePhonemes, comparePhonemes,
        if_neg (by push_neg; exact ⟨data_ne_of_jsTrim hu, data_ne_of_jsTrim ht⟩),
        if_neg (by push_neg; exact ⟨data_ne_of_jsTrim hu', data_ne_of_jsTrim ht'⟩),
        hwl_u, hwl_t] ]
    rw [show calculateLengthPenalty u t = calculateLengthPenalty u' t' from by
      rw [calculateLengthPenalty, calculateLengthPenalty, hwu, hwt] ]
    rw [show calculateWordOrderBonus u t = calculateWordOrderBonus u' t' from by
      rw [calculateWordOrderBonus, calculateWordOrderBonus, hwl_u, hwl_t] ]
  · exact compareTexts_eq_74 (by decide) (by decide) (by decide) (by decide)

/-- Witness for C7: the invariance theorem applied at concrete inputs whose
whitespace layouts differ. -/
theorem spec_c7_whitespace_insensitivity_witness :
    jsTrim " hello ".data ≠ [] ∧ jsTrim "hello".data ≠ [] ∧
    jsTrim "world".data ≠ [] ∧ strWords " hello " = strWords "hello" ∧
    compareTexts " hello " "world" = compareTexts "hello" "world" :=
  ⟨by decide, by decide, by decide, by decide,
    spec_c7_whitespace_insensitivity.1 " hello " "hello" "world" "world"
      (by decide) (by decide) (by decide) (by decide) (by decide) rfl⟩

/-- Counterexample to C7 as stated: the claim's example scores 74, not 100. -/
theorem spec_c7_counterexample :
    compareTexts "  hello   world  " "hello world" = 74 ∧
    compareTexts "  hello   world  " "hello world" ≠ 100 := by
  have h : compareTexts "  hello   world  " "hello world" = 74 :=
    compareTexts_eq_74 (by decide) (by decide) (by decide) (by decide)
  exact ⟨h, by rw [h]; decide⟩

/-! ### Claim C4 -/

set_option maxHeartbeats 1600000 in
/-- C4: `getLetterGrade` maps every rational score by the stepped thresholds
97/93/90/87/83/80/77/73/70/67/65 to A+, A, A-, B+, B, B-, C+, C, C-, D+, D and
everything below 65 to F; in particular 100 and 110 give A+, 95 gives A, and
60, 0 and -10 all give F, so out-of-range scores clamp to the boundary
grades. -/
theorem spec_c4_letter_grade :
    (∀ s : ℚ,
      (97 ≤ s → getLetterGrade s = "A+") ∧
      (93 ≤ s → s < 97 → getLetterGrade s = "A") ∧
      (90 ≤ s → s < 93 → getLetterGrade s = "A-") ∧
      (87 ≤ s → s < 90 → getLetterGrade s = "B+") ∧
      (83 ≤ s → s < 87 → getLetterGrade s = "B") ∧
      (80 ≤ s → s < 83 → getLetterGrade s = "B-") ∧
      (77 ≤ s → s < 80 → getLetterGrade s = "C+") ∧
      (73 ≤ s → s < 77 → getLetterGrade s = "C") ∧
      (70 ≤ s → s < 73 → getLetterGrade s = "C-") ∧
      (67 ≤ s → s < 70 → getLetterGrade s = "D+") ∧
      (65 ≤ s → s < 67 → getLetterGrade s = "D") ∧
      (s < 65 → getLetterGrade s = "F")) ∧
    getLetterGrade 100 = "A+" ∧ getLetterGrade 110 = "A+" ∧ getLetterGrade 95 = "A" ∧
    getLetterGrade 60 = "F" ∧ getLetterGrade 0 = "F" ∧ getLetterGrade (-10) = "F" := by
  constructor
  · intro s
    rw [getLetterGrade]
    split_ifs <;>
      refine ⟨?_, ?_, ?_, ?_, ?_, ?_, ?_, ?_, ?_, ?_, ?_, ?_⟩ <;> intros <;>
        first | rfl | linarith
  · refine ⟨?_, ?_, ?_, ?_, ?_, ?_⟩ <;> norm_num [getLetterGrade]

/-- Witness for C4: the threshold theorem applied at score 100. -/
theorem spec_c4_letter_grade_witness :
    (97 : ℚ) ≤ 100 ∧ getLetterGrade 100 = "A+" :=
  ⟨by norm_num, (spec_c4_letter_grade.1 100).1 (by norm_num)⟩

/-! ### Claim C6 -/

/-- C6: `analyzeDifficulty` returns `advanced` exactly when the word count
exceeds 15, or the average word length exceeds 6, or the tongue-twister regex
matches; otherwise `intermediate` exactly when the word count exceeds 10, or
the average word length exceeds 5, or a complex-sound substring occurs;
otherwise `basic`.  The word count is positive for every phrase (so the
average never divides by zero), the empty string yields `basic`, and the
Peter Piper phrase yields `advanced`. -/
theorem spec_c6_analyze_difficulty :
    (∀ p : String,
      (analyzeDifficulty p = "advanced" ↔
        (15 < phraseWordCount p ∨ 6 < phraseAvgWordLength p ∨
          phraseHasTongueTwister p = true)) ∧
      (analyzeDifficulty p = "intermediate" ↔
        (¬(15 < phraseWordCount p ∨ 6 < phraseAvgWordLength p ∨
            phraseHasTongueTwister p = true) ∧
          (10 < phraseWordCount p ∨ 5 < phraseAvgWordLength p ∨
            phraseHasComplexSounds p = true))) ∧
      (analyzeDifficulty p = "basic" ↔
        (¬(15 < phraseWordCount p ∨ 6 < phraseAvgWordLength p ∨
            phraseHasTongueTwister p = true) ∧
          ¬(10 < phraseWordCount p ∨ 5 < phraseAvgWordLength p ∨
            phraseHasComplexSounds p = true)))) ∧
    (∀ p : String, 0 < phraseWordCount p) ∧
    analyzeDifficulty "" = "basic" ∧
    analyzeDifficulty
      "Peter Piper picked a peck of pickled peppers from the particularly problematic patch"
      = "advanced" := by
  have hne1 : ("advanced" : String) ≠ "intermediate" := by decide
  have hne2 : ("advanced" : String) ≠ "basic" := by decide
  have hne3 : ("intermediate" : String) ≠ "advanced" := by decide
  have hne4 : ("intermediate" : String) ≠ "basic" := by decide
  have hne5 : ("basic" : String) ≠ "advanced" := by decide
  have hne6 : ("basic" : String) ≠ "intermediate" := by decide
  refine ⟨fun p => ?_, fun p => List.length_pos.mpr (jsSplitAux_ne_nil _ _ _), ?_, ?_⟩
  · rw [analyzeDifficulty]
    split_ifs with hA hI
    · exact ⟨⟨fun _ => hA, fun _ => rfl⟩,
        ⟨fun h => absurd h hne1, fun h => absurd hA h.1⟩,
        ⟨fun h => absurd h hne2, fun h => absurd hA h.1⟩⟩
    · exact ⟨⟨fun h => absurd h hne3, fun h => absurd h hA⟩,
        ⟨fun _ => ⟨hA, hI⟩, fun _ => rfl⟩,
        ⟨fun h => absurd h hne4, fun h => absurd hI h.2⟩⟩
    · exact ⟨⟨fun h => absurd h hne5, fun h => absurd h hA⟩,
        ⟨fun h => absurd h hne6, fun h => absurd h.2 hI⟩,
        ⟨fun _ => ⟨hA, hI⟩, fun _ => rfl⟩⟩
  · have havg : phraseAvgWordLength "" = 0 := by
      rw [phraseAvgWordLength,
        show ("".data.filter (fun c => !jsSpace c)).length = 0 from by decide]
      norm_num
    rw [analyzeDifficulty, if_neg, if_neg]
    · push_neg
      exact ⟨by decide, by rw [havg]; norm_num, by decide⟩
    · push_neg
      exact ⟨by decide, by rw [havg]; norm_num, by decide⟩
  · rw [analyzeDifficulty, if_pos]
    exact Or.inr (Or.inr (by decide))

/-- Witness for C6: the characterization applied to the phrase `"hello"`,
whose difficulty is `basic`. -/
theorem spec_c6_analyze_difficulty_witness :
    analyzeDifficulty "hello" = "basic" := by
  have h := (spec_c6_analyze_difficulty.1 "hello").2.2
  have havg : phraseAvgWordLength "hello" = 5 := by
    rw [phraseAvgWordLength,
      show ("hello".data.filter (fun c => !jsSpace c)).length = 5 from by decide,
      show phraseWordCount "hello" = 1 from by decide]
    norm_num
  apply h.mpr
  constructor
  · push_neg
    exact ⟨by decide, by rw [havg]; norm_num, by decide⟩
  · push_neg
    exact ⟨by decide, by rw [havg], by decide⟩

/-! ### Claim C8 -/

/-- C8: `calculateDifficulty` returns
`round(clamp(sum / wordCount * 5, 1, 10))` — where `sum` is twice the number
of words longer than 7 characters, plus the consonant-cluster runs of length
at least 3, plus the occurrences of `th`/`zh`/`ng`/`tion`/`sion`, plus the
tongue-twister score (the `difficultyFormulaSpec` formula) — an integer in
`[1, 10]`; the word count is always positive, so the division is never by
zero and the empty string is handled. -/
theorem spec_c8_calculate_difficulty :
    ∀ text : String,
      calculateDifficulty text = difficultyFormulaSpec text ∧
      1 ≤ calculateDifficulty text ∧ calculateDifficulty text ≤ 10 ∧
      0 < (jsSplitWs (lowerStr text.data)).length := by
  intro text
  refine ⟨?_, ?_, ?_, List.length_pos.mpr (jsSplitAux_ne_nil _ _ _)⟩
  · rw [calculateDifficulty, difficultyFormulaSpec]
    push_cast
    exact clamp_jsRound_1_10 _
  · rw [calculateDifficulty]
    exact le_min (by norm_num) (le_max_left _ _)
  · rw [calculateDifficulty]
    exact min_le_left _ _

/-! ### Claim C9 -/

lemma fiveMessages_mem (x : ℚ) :
    (if 10 < x then
      "Amazing improvement! You\x27re really getting the hang of this! 🌟"
    else if 5 < x then
      "Great progress! Keep up the excellent work! 📈"
    else if 0 < x then
      "Nice job! You\x27re steadily improving! 👍"
    else if -5 < x then
      "Stay consistent! Small daily practice leads to big improvements! 💪"
    else
      "Don\x27t worry about one session. Focus on the long-term progress! 🌱") ∈
      ["Amazing improvement! You\x27re really getting the hang of this! 🌟",
       "Great progress! Keep up the excellent work! 📈",
       "Nice job! You\x27re steadily improving! 👍",
       "Stay consistent! Small daily practice leads to big improvements! 💪",
       "Don\x27t worry about one session. Focus on the long-term progress! 🌱"] := by
  split_ifs <;> simp

/-- C9: `generateMotivationalMessage` returns the fixed welcome message when
the history is empty, and otherwise agrees with the spec's description — the
recent average is the arithmetic mean of the last 3 prior scores (of all of
them when fewer than 3), and one of five fixed messages is selected by the
improvement thresholds `>10`, `>5`, `>0`, `>-5`, else. -/
theorem spec_c9_motivational :
    (∀ c : ℚ, generateMotivationalMessage c [] =
      "Welcome to pronunciation practice! Let\x27s start building your speaking confidence! 🚀") ∧
    (∀ (c : ℚ) (prev : List ℚ),
      generateMotivationalMessage c prev = motivationalSpec c prev) ∧
    (∀ (c : ℚ) (prev : List ℚ), prev ≠ [] →
      generateMotivationalMessage c prev ∈
        ["Amazing improvement! You\x27re really getting the hang of this! 🌟",
         "Great progress! Keep up the excellent work! 📈",
         "Nice job! You\x27re steadily improving! 👍",
         "Stay consistent! Small daily practice leads to big improvements! 💪",
         "Don\x27t worry about one session. Focus on the long-term progress! 🌱"]) := by
  refine ⟨fun c => rfl, fun c prev => ?_, fun c prev h => ?_⟩
  · by_cases h : prev = []
    · rw [generateMotivationalMessage, motivationalSpec, if_pos h, if_pos h]
    · rw [generateMotivationalMessage, motivationalSpec, if_neg h, if_neg h]
      have hlen : (prev.drop (prev.length - 3)).length = min 3 prev.length := by
        rw [List.length_drop]
        omega
      simp only [hlen]
  · rw [generateMotivationalMessage, if_neg h]
    exact fiveMessages_mem _

/-- Witness for C9: the five-message selection applied to a concrete
nonempty history. -/
theorem spec_c9_motivational_witness :
    ([(70 : ℚ), 72, 75] ≠ []) ∧
    generateMotivationalMessage 85 [70, 72, 75] ∈
      ["Amazing improvement! You\x27re really getting the hang of this! 🌟",
       "Great progress! Keep up the excellent work! 📈",
       "Nice job! You\x27re steadily improving! 👍",
       "Stay consistent! Small daily practice leads to big improvements! 💪",
       "Don\x27t worry about one session. Focus on the long-term progress! 🌱"] :=
  ⟨List.cons_ne_nil _ _,
    spec_c9_motivational.2.2 85 [70, 72, 75] (List.cons_ne_nil _ _)⟩

/-! ### Claim C10 -/

lemma errWalkMissed_all_ne {ts : List (List Char)} (h : ∀ w ∈ ts, w ≠ []) :
    errWalkMissed ts = ⟨ts, [], []⟩ := by
  induction ts with
  | nil => rfl
  | cons t ts ih =>
      rw [errWalkMissed, ih (fun w hw => h w (List.mem_cons_of_mem _ hw)),
        if_pos (h t (List.mem_cons_self _ _))]

lemma errWalk_nil_right {us : List (List Char)} (h : ∀ w ∈ us, w ≠ []) :
    errWalk us [] = ⟨[], us, []⟩ := by
  induction us with
  | nil => rfl
  | cons u us ih =>
      rw [errWalk, ih (fun w hw => h w (List.mem_cons_of_mem _ hw)),
        if_pos (h u (List.mem_cons_self _ _))]

lemma errWalk_counts : ∀ us ts : List (List Char),
    (∀ w ∈ us, w ≠ []) → (∀ w ∈ ts, w ≠ []) →
    (errWalk us ts).missedWords.length = ts.length - us.length ∧
    (errWalk us ts).addedWords.length = us.length - ts.length ∧
    (errWalk us ts).substitutions.length ≤ min us.length ts.length ∧
    (∀ w ∈ (errWalk us ts).missedWords, w ∈ ts) ∧
    (∀ w ∈ (errWalk us ts).addedWords, w ∈ us) := by
  intro us
  induction us with
  | nil =>
      intro ts _ hts
      rw [show errWalk [] ts = errWalkMissed ts from rfl, errWalkMissed_all_ne hts]
      simp
  | cons u us ih =>
      intro ts hus hts
      have hu : u ≠ [] := hus u (List.mem_cons_self _ _)
      have hus' : ∀ w ∈ us, w ≠ [] := fun w hw => hus w (List.mem_cons_of_mem _ hw)
      cases ts with
      | nil =>
          rw [errWalk_nil_right hus]
          simp
      | cons t ts' =>
          have ht : t ≠ [] := hts t (List.mem_cons_self _ _)
          have hts' : ∀ w ∈ ts', w ≠ [] := fun w hw => hts w (List.mem_cons_of_mem _ hw)
          obtain ⟨ih1, ih2, ih3, ih4, ih5⟩ := ih ts' hus' hts'
          rw [errWalk, if_neg (by tauto)]
          by_cases hut : u = t
          · rw [if_neg (by tauto), if_neg (by tauto)]
            refine ⟨by simpa using ih1, by simpa using ih2, ?_, ?_, ?_⟩
            · simp only [List.length_cons]
              omega
            · exact fun w hw => List.mem_cons_of_mem _ (ih4 w hw)
            · exact fun w hw => List.mem_cons_of_mem _ (ih5 w hw)
          · rw [if_neg (by tauto), if_pos ⟨hu, ht, hut⟩]
            refine ⟨by simpa using ih1, by simpa using ih2, ?_, ?_, ?_⟩
            · simp only [List.length_cons]
              omega
            · exact fun w hw => List.mem_cons_of_mem _ (ih4 w hw)
            · exact fun w hw => List.mem_cons_of_mem _ (ih5 w hw)

/-- C10: on inputs that are non-empty after trimming, `analyzeErrors` returns
exactly `max(0, targetCount − userCount)` missed words (natural subtraction
below) and exactly `max(0, userCount − targetCount)` added words — so at most
one of the two lists is non-empty — at most `min(userCount, targetCount)`
substitutions, every missed word is a word of the target sequence, and every
added word is a word of the user sequence. -/
theorem spec_c10_error_invariants :
    ∀ u t : String, jsTrim u.data ≠ [] → jsTrim t.data ≠ [] →
      (analyzeErrors u t).missedWords.length =
        (strWordsLower t).length - (strWordsLower u).length ∧
      (analyzeErrors u t).addedWords.length =
        (strWordsLower u).length - (strWordsLower t).length ∧
      ((analyzeErrors u t).missedWords = [] ∨ (analyzeErrors u t).addedWords = []) ∧
      (analyzeErrors u t).substitutions.length ≤
        min (strWordsLower u).length (strWordsLower t).length ∧
      (∀ w ∈ (analyzeErrors u t).missedWords, w ∈ strWordsLower t) ∧
      (∀ w ∈ (analyzeErrors u t).addedWords, w ∈ strWordsLower u) := by
  intro u t hu ht
  obtain ⟨h1, h2, h3, h4, h5⟩ :=
    errWalk_counts (strWordsLower u) (strWordsLower t)
      (strWordsLower_all_ne hu) (strWordsLower_all_ne ht)
  refine ⟨h1, h2, ?_, h3, h4, h5⟩
  rw [← List.length_eq_zero, ← List.length_eq_zero,
    show analyzeErrors u t = errWalk (strWordsLower u) (strWordsLower t) from rfl, h1, h2]
  omega

/-- Witness for C10: the invariants applied at a concrete input pair with one
missed word and one substitution. -/
theorem spec_c10_error_invariants_witness :
    jsTrim "hi there".data ≠ [] ∧ jsTrim "hey there friend".data ≠ [] ∧
    (analyzeErrors "hi there" "hey there friend").missedWords.length =
      (strWordsLower "hey there friend").length - (strWordsLower "hi there").length :=
  ⟨by decide, by decide,
    (spec_c10_error_invariants "hi there" "hey there friend" (by decide) (by decide)).1⟩

/-! ### Claim C5 -/

lemma wordAt_nil (i : ℕ) : wordAt ([] : List (List Char)) i = none := by
  simp [wordAt]

lemma wordAt_cons_zero (x : List Char) (xs : List (List Char)) :
    wordAt (x :: xs) 0 = if x = [] then none else some x := by
  simp [wordAt]

lemma wordAt_cons_succ (x : List Char) (xs : List (List Char)) (i : ℕ) :
    wordAt (x :: xs) (i + 1) = wordAt xs i := by
  simp [wordAt]

lemma filterMap_range_succ {α : Type} (f : ℕ → Option α) (n : ℕ) :
    (List.range (n + 1)).filterMap f =
      (f 0).toList ++ (List.range n).filterMap (fun i => f (i + 1)) := by
  rw [List.range_succ_eq_map, List.filterMap_cons]
  cases h : f 0 <;>
    simp [h, List.filterMap_map, Function.comp_def, Nat.succ_eq_add_one]

/-- The loop of `analyzeErrors` computes exactly the three index-walk lists
described by the spec. -/
lemma errWalk_eq_spec : ∀ us ts : List (List Char),
    errWalk us ts = ⟨missedSpec us ts, addedSpec us ts, substSpec us ts⟩ := by
  intro us
  induction us with
  | nil =>
      intro ts
      induction ts with
      | nil => rfl
      | cons t ts ihts =>
          rw [show errWalk [] (t :: ts) = errWalkMissed (t :: ts) from rfl, errWalkMissed,
            show errWalkMissed ts = errWalk [] ts from rfl, ihts]
          by_cases ht : t = []
          · subst ht
            simp [missedSpec, addedSpec, substSpec, filterMap_range_succ,
              wordAt_cons_zero, wordAt_cons_succ, wordAt_nil, Nat.zero_max]
          · simp [ht, missedSpec, addedSpec, substSpec, filterMap_range_succ,
              wordAt_cons_zero, wordAt_cons_succ, wordAt_nil, Nat.zero_max]
  | cons u us ihus =>
      intro ts
      cases ts with
      | nil =>
          rw [errWalk, ihus []]
          by_cases hu : u = []
          · subst hu
            simp [missedSpec, addedSpec, substSpec, filterMap_range_succ,
              wordAt_cons_zero, wordAt_cons_succ, wordAt_nil, Nat.max_zero]
          · simp [hu, missedSpec, addedSpec, substSpec, filterMap_range_succ,
              wordAt_cons_zero, wordAt_cons_succ, wordAt_nil, Nat.max_zero]
      | cons t ts =>
          rw [errWalk, ihus ts]
          by_cases hu : u = []
          · subst hu
            by_cases ht : t = []
            · subst ht
              simp [missedSpec, addedSpec, substSpec, filterMap_range_succ,
                wordAt_cons_zero, wordAt_cons_succ, Nat.succ_max_succ]
            · simp [ht, missedSpec, addedSpec, substSpec, filterMap_range_succ,
                wordAt_cons_zero, wordAt_cons_succ, Nat.succ_max_succ]
          · by_cases ht : t = []
            · subst ht
              simp [hu, missedSpec, addedSpec, substSpec, filterMap_range_succ,
                wordAt_cons_zero, wordAt_cons_succ, Nat.succ_max_succ]
            · by_cases hut : u = t
              · subst hut
                simp [hu, ht, missedSpec, addedSpec, substSpec, filterMap_range_succ,
                  wordAt_cons_zero, wordAt_cons_succ, Nat.succ_max_succ]
              · have hut' : ¬ t = u := fun h => hut h.symm
                simp [hu, ht, hut, hut', missedSpec, addedSpec, substSpec,
                  filterMap_range_succ, wordAt_cons_zero, wordAt_cons_succ,
                  Nat.succ_max_succ]

/-- C5: `analyzeErrors` lowercases, trims and splits both texts, then walks
the positions `i` below the larger word count, appending the target word to
`missedWords` when only the target has a word at `i`, the user word to
`addedWords` when only the user has a word at `i`, and the pair
`{original, spoken}` to `substitutions` when both are present and unequal (a
"word at `i`" being a nonempty token at that index); in particular
`analyzeErrors("hello earth", "hello world")` yields exactly the substitution
`{original: "world", spoken: "earth"}` with no missed or added words. -/
theorem spec_c5_analyze_errors :
    (∀ u t : String, analyzeErrors u t =
      ⟨missedSpec (strWordsLower u) (strWordsLower t),
       addedSpec (strWordsLower u) (strWordsLower t),
       substSpec (strWordsLower u) (strWordsLower t)⟩) ∧
    analyzeErrors "hello earth" "hello world" =
      ⟨[], [], [⟨"world".data, "earth".data⟩]⟩ :=
  ⟨fun u t => errWalk_eq_spec _ _, by decide⟩

end Pron
